import Mathlib

/-!
Verification of the financial-risk engine of
`financial-risk-insights-platform` (Python sources under
`backend/FinancialRisk.Api/Services/`).

The numeric kernel of the engine is embedded shallowly over `ℚ`:
`np.percentile` (linear interpolation), the VaR/CVaR estimators of the
three modules (`monte_carlo_engine.py`, `monte_carlo_var.py`,
`python_models/quant_models.py`), the Cholesky feasibility test used by
the correlation injector, the parameter-estimation step of the
single-asset simulator and stress runner, and the deterministic parts of
`portfolio_optimizer.py` (covariance derivation, method dispatch, the
result record and its error paths).  Randomness is factored out: the
outcome of a stochastic step (solver result, Monte Carlo draws, the
standard-normal sample block) enters as an explicit argument, so every
definition is executable.  Quantities whose source value is a square
root (volatilities of simulated samples) are carried in squared form
(variances) so that the embedding stays inside `ℚ`; equal variances of
nonnegative quantities correspond exactly to equal standard deviations.
-/

namespace FinRisk

/-- Arithmetic mean of a list of rationals, `np.mean`; division by zero
in `ℚ` yields `0` for the empty list (numpy would give `nan`, a value no
reachable call site produces). -/
def meanQ (xs : List ℚ) : ℚ := xs.sum / (xs.length : ℚ)

/-- Dot product of two rational vectors (`np.dot`); extra entries of the
longer vector are ignored, matching equal-length use in the source. -/
def dotQ (x y : List ℚ) : ℚ := ((x.zip y).map fun p => p.1 * p.2).sum

/-- Ascending sort, modelling `np.sort` / `sorted`. -/
def sortQ (xs : List ℚ) : List ℚ := xs.insertionSort (· ≤ ·)

/-- Bessel-corrected sample variance, `np.std(xs, ddof=1) ** 2` kept in
squared form so the value stays rational. -/
def sampleVarQ (xs : List ℚ) : ℚ :=
  (xs.map fun x => (x - meanQ xs) ^ 2).sum / ((xs.length : ℚ) - 1)

/-- The `np.percentile(xs, q)` estimator with the default linear
interpolation: virtual position `q/100 * (n-1)` into the ascending
sort, interpolating between the two neighbouring order statistics. -/
def npPercentile (xs : List ℚ) (q : ℚ) : ℚ :=
  let s := sortQ xs
  let pos : ℚ := q * ((xs.length : ℚ) - 1) / 100
  let i : ℕ := (Int.floor pos).toNat
  let lo := s.getD i 0
  let hi := s.getD (i + 1) lo
  lo + (pos - (i : ℚ)) * (hi - lo)

/-! ## monte_carlo_engine.py -/

/-- `MonteCarloEngine._calculate_var` (monte_carlo_engine.py lines
536-538): the negated `(1-c)*100` percentile of the sample. -/
def calculate_var (returns : List ℚ) (confidence_level : ℚ) : ℚ :=
  -(npPercentile returns ((1 - confidence_level) * 100))

/-- The tail sample selected by `MonteCarloEngine._calculate_cvar`
(line 543): all values at or below the negated VaR. -/
def engineTail (returns : List ℚ) (confidence_level : ℚ) : List ℚ :=
  returns.filter fun r => r ≤ -(calculate_var returns confidence_level)

/-- `MonteCarloEngine._calculate_cvar` (lines 540-544): negated mean of
the tail at or below `-VaR`; `0.0` when the tail is empty. -/
def calculate_cvar (returns : List ℚ) (confidence_level : ℚ) : ℚ :=
  let t := engineTail returns confidence_level
  if 0 < t.length then -(meanQ t) else 0

/-- `MonteCarloEngine._estimate_parameters` (lines 434-439): sample mean
and Bessel-corrected standard deviation of the history.  The deviation
is carried as the sample variance (its square) to stay in `ℚ`. -/
def estimate_parameters (returns : List ℚ) : ℚ × ℚ :=
  (meanQ returns, sampleVarQ returns)

/-- Asset inputs of the Monte Carlo engine (`AssetParameters`
dataclass, lines 68-83; `distribution_params` carries no data any
verified claim touches and is omitted). -/
structure AssetParameters where
  symbol : String
  initial_price : ℚ
  expected_return : ℚ
  volatility : ℚ
  historical_returns : List ℚ
  weight : ℚ
deriving Repr, DecidableEq

/-- Parameter-estimation step of `MonteCarloEngine.simulate_single_asset`
(lines 197-203): when the history is non-empty the (mean, volatility)
pair is estimated from it and the supplied scalars are not read;
otherwise the supplied scalars are used (the volatility squared here to
match the squared representation of `estimate_parameters`). -/
def simulationParameters (asset : AssetParameters) : ℚ × ℚ :=
  if asset.historical_returns ≠ [] then
    estimate_parameters asset.historical_returns
  else
    (asset.expected_return, asset.volatility ^ 2)

/-- Stressed asset built by `MonteCarloEngine.perform_stress_test`
(lines 414-423): expected return and volatility are scaled by the
scenario multipliers, every other field (the history included) is
copied unchanged. -/
def stressedAsset (asset : AssetParameters)
    (return_multiplier volatility_multiplier : ℚ) : AssetParameters :=
  { asset with
    expected_return := asset.expected_return * return_multiplier,
    volatility := asset.volatility * volatility_multiplier }

/-! ## monte_carlo_var.py -/

/-- Index used by `MonteCarloVaRCalculator._calculate_var_cvar`
(monte_carlo_var.py line 344): `int((1 - c) * len(returns))`; Python
`int` truncation agrees with the floor for the nonnegative values that
arise from `c ≤ 1`, and `Int.toNat` clamps negatives to `0` exactly as
`int` truncation toward zero does. -/
def mcVarIndex (returns : List ℚ) (confidence_level : ℚ) : ℕ :=
  (Int.floor ((1 - confidence_level) * (returns.length : ℚ))).toNat

/-- `MonteCarloVaRCalculator._calculate_var_cvar` (lines 338-351): VaR
is the negated order statistic at `mcVarIndex` of the ascending sort,
with no interpolation; CVaR is the negated mean of the sorted values
strictly before that index, falling back to VaR when there are none. -/
def mcVarCvar (returns : List ℚ) (confidence_level : ℚ) : ℚ × ℚ :=
  let s := sortQ returns
  let idx := mcVarIndex returns confidence_level
  let v := -(s.getD idx 0)
  let t := s.take idx
  (v, if 0 < t.length then -(meanQ t) else v)

/-! ## python_models/quant_models.py -/

/-- `_cvar_calculation` (quant_models.py lines 122-142): VaR as the
negated interpolated percentile, CVaR as the negated mean of all values
at or below `-VaR`, falling back to VaR on an empty tail. -/
def cvarCalculation (returns : List ℚ) (confidence_level : ℚ) : ℚ × ℚ :=
  let v := -(npPercentile returns ((1 - confidence_level) * 100))
  let t := returns.filter fun r => r ≤ -v
  (v, if 0 < t.length then -(meanQ t) else v)

/-! ## Correlation injector (monte_carlo_engine.py lines 506-534) -/

/-- One elimination step of the rational Cholesky feasibility test:
`choleskyFailsAux fuel m` is `true` exactly when a pivot `≤ 0` appears
while factoring, which is when `scipy.linalg.cholesky` raises
`LinAlgError` (matrix not positive definite).  Fuel is the row count,
making the recursion structural and kernel-reducible. -/
def choleskyFailsAux : ℕ → List (List ℚ) → Bool
  | 0, _ => false
  | _ + 1, [] => false
  | fuel + 1, row :: rest =>
    let a := row.headD 0
    if a ≤ 0 then true
    else
      choleskyFailsAux fuel
        (rest.map fun r =>
          ((r.tail).zip row.tail).map fun p => p.1 - r.headD 0 * p.2 / a)

/-- Whether the Cholesky factorization of a matrix fails (raises
`LinAlgError` in `scipy.linalg.cholesky`). -/
def choleskyFails (m : List (List ℚ)) : Bool := choleskyFailsAux m.length m

/-- Slice of the `SimulationResult` dataclass (monte_carlo_engine.py
lines 116-134) holding the fields the correlation injector reads; the
`standard_deviation` field carries whatever value `np.std` produced for
the simulated sample. -/
structure SimulationResult where
  simulated_returns : List ℚ
  expected_value : ℚ
  standard_deviation : ℚ
deriving Repr, DecidableEq

/-- Matrix product of rational matrices (`L @ independent_samples`). -/
def matMulQ (A B : List (List ℚ)) : List (List ℚ) :=
  A.map fun row => B.transpose.map fun col => dotQ row col

/-- `MonteCarloEngine._generate_correlated_returns` (lines 506-534).
`choleskyL` stands for the lower-triangular factor `scipy` computes on
success (its entries are square roots and enter as data);
`independent_samples` is the standard-normal block drawn from the
engine generator.  On factorization failure the function logs a warning
and returns each asset result's own simulated returns unchanged —
nothing else in the result records the fallback. -/
def generate_correlated_returns (asset_results : List SimulationResult)
    (correlation_matrix choleskyL independent_samples : List (List ℚ)) :
    List (List ℚ) :=
  if choleskyFails correlation_matrix then
    asset_results.map fun r => r.simulated_returns
  else
    ((asset_results.zip (matMulQ choleskyL independent_samples)).map
      fun p => p.2.map fun z => p.1.expected_value + p.1.standard_deviation * z)

/-- Metadata record attached by `MonteCarloEngine.simulate_portfolio`
(lines 353-359).  Field `diversification` is the source key
`diversification_ratio`; `correlation_used` is the only
correlation-related entry.  The record has no field that depends on
whether the Cholesky fallback fired. -/
structure PortfolioMetadata where
  num_assets : ℕ
  portfolio_weights : List ℚ
  diversification : ℚ
  correlation_used : Bool
deriving Repr, DecidableEq

/-- Construction of the portfolio metadata (lines 354-359):
`correlation_used` is set from whether a correlation matrix was
supplied, irrespective of the factorization outcome. -/
def simulatePortfolioMetadata (num_assets : ℕ)
    (normalized_weights : List ℚ) (diversification : ℚ)
    (correlation_matrix : Option (List (List ℚ))) : PortfolioMetadata :=
  { num_assets := num_assets,
    portfolio_weights := normalized_weights,
    diversification := diversification,
    correlation_used := correlation_matrix.isSome }

/-! ## portfolio_optimizer.py -/

/-- `AssetData` dataclass (portfolio_optimizer.py lines 71-80); the
optional descriptive fields (sector, market cap, beta) are never read
by the optimization path and are omitted. -/
structure AssetData where
  symbol : String
  expected_return : ℚ
  volatility : ℚ
  historical_returns : List ℚ
deriving Repr, DecidableEq

/-- The seven members of the `OptimizationMethod` enum (lines 33-41). -/
inductive OptimizationMethod where
  | mean_variance
  | minimum_variance
  | maximum_sharpe
  | equal_weight
  | risk_parity
  | black_litterman
  | mean_cvar
deriving Repr, DecidableEq

/-- String value of each enum member, as in the Python enum. -/
def OptimizationMethod.value : OptimizationMethod → String
  | .mean_variance => "mean_variance"
  | .minimum_variance => "minimum_variance"
  | .maximum_sharpe => "maximum_sharpe"
  | .equal_weight => "equal_weight"
  | .risk_parity => "risk_parity"
  | .black_litterman => "black_litterman"
  | .mean_cvar => "mean_cvar"

/-- `np.cov` of a row-per-variable matrix with the default `ddof=1`:
entry `(i,j)` is the dot product of the centred rows divided by
`m - 1` observations. -/
def sampleCovQ (rows : List (List ℚ)) : List (List ℚ) :=
  let centered := rows.map fun r => r.map fun x => x - meanQ r
  centered.map fun ri =>
    centered.map fun rj => dotQ ri rj / ((ri.length : ℚ) - 1)

/-- Fallback covariance of `PortfolioOptimizer._update_matrices`
(line 377): outer product of the supplied volatilities scaled by the
assumed uniform correlation `0.3`. -/
def fallbackCov (assets : List AssetData) : List (List ℚ) :=
  let vols := assets.map fun a => a.volatility
  vols.map fun vi => vols.map fun vj => vi * vj * (3 / 10)

/-- `PortfolioOptimizer._update_matrices` (lines 361-379), covariance
part.  With fewer than 2 assets the method returns without setting a
matrix (`none`).  The history branch is taken whenever every asset has
a non-empty history; inside it, `np.array` of histories of unequal
lengths cannot form the rectangular matrix `np.cov` needs and raises,
so no covariance is produced (`none`, the exception propagating out of
`add_asset`). -/
def update_matrices (assets : List AssetData) : Option (List (List ℚ)) :=
  if assets.length < 2 then none
  else if assets.all fun a => 0 < a.historical_returns.length then
    if (assets.map fun a => a.historical_returns).all
        fun r => r.length = ((assets.map fun a => a.historical_returns).headD []).length then
      some (sampleCovQ (assets.map fun a => a.historical_returns))
    else none
  else some (fallbackCov assets)

/-- The `OptimizationResult` record (lines 82-100).  `expected_variance`
carries the square of the source's `expected_volatility` so the record
stays rational; the derived square-root-valued fields (volatility,
Sharpe, diversification) are determined by it and are not duplicated.
Field `concentration` is the source key `concentration_ratio`. -/
structure OptimizationResult where
  success : Bool
  optimal_weights : List ℚ
  expected_return : ℚ
  expected_variance : ℚ
  var : ℚ
  cvar : ℚ
  concentration : ℚ
  method : String
  error_message : String
deriving Repr, DecidableEq

/-- Failure record produced by `optimize` on each of its error paths
(lines 150-163, 185-198, 238-251): `success=False`, all numeric fields
zero, and the human-readable message. -/
def failResult (method error_message : String) : OptimizationResult :=
  { success := false, optimal_weights := [], expected_return := 0,
    expected_variance := 0, var := 0, cvar := 0, concentration := 0,
    method := method, error_message := error_message }

/-- Method dispatch of `optimize` (lines 168-183).  `equal_weight`
returns `np.ones(n)/n` in closed form (lines 458-461) without touching
the solver; every other branch — `black_litterman` and `mean_cvar`
falling through to mean-variance (lines 490-500) — runs `opt.minimize`,
whose outcome (including `None` after an internal exception, lines
400-405 etc.) enters as the abstract `solver` argument. -/
def methodWeights (method : OptimizationMethod) (n : ℕ)
    (solver : Option (List ℚ)) : Option (List ℚ) :=
  match method with
  | .equal_weight => some (List.replicate n (1 / (n : ℚ)))
  | _ => solver

/-- `PortfolioOptimizer._calculate_risk_metrics` (lines 529-555) on the
Monte Carlo portfolio draws (the 10,000 multivariate-normal draws enter
as the `draws` argument): VaR by interpolated percentile and CVaR as
the negated mean of the tail at or below `-VaR` (the source has no
empty-tail guard here; `meanQ [] = 0` in `ℚ`). -/
def calculateRiskMetrics (draws : List ℚ) (confidence_level : ℚ) : ℚ × ℚ :=
  let v := -(npPercentile draws ((1 - confidence_level) * 100))
  (v, -(meanQ (draws.filter fun r => r ≤ -v)))

/-- `PortfolioOptimizer._calculate_concentration_ratio` (lines
571-573): the Herfindahl index, sum of squared weights. -/
def calculate_concentration (weights : List ℚ) : ℚ :=
  (weights.map fun w => w ^ 2).sum

/-- Matrix-vector product (`np.dot(cov, w)`). -/
def matVecQ (A : List (List ℚ)) (x : List ℚ) : List ℚ :=
  A.map fun row => dotQ row x

/-- `PortfolioOptimizer.optimize` (lines 142-251).  `covariance_matrix`
is the matrix `add_asset` installed via `_update_matrices`; `solver`
is the abstract `opt.minimize` outcome; `draws` the Monte Carlo sample
of `_calculate_risk_metrics`.  Fewer than 2 assets and a `None`/empty
solver result yield the dedicated failure records; otherwise the
success record is assembled from the solved weights. -/
def optimize (assets : List AssetData) (covariance_matrix : List (List ℚ))
    (method : OptimizationMethod) (solver : Option (List ℚ))
    (draws : List ℚ) (confidence_level : ℚ) : OptimizationResult :=
  if assets.length < 2 then
    failResult method.value "At least 2 assets required for optimization"
  else
    match methodWeights method assets.length solver with
    | none => failResult method.value "Optimization failed to converge"
    | some w =>
      if w.length = 0 then
        failResult method.value "Optimization failed to converge"
      else
        let expected_returns := assets.map fun a => a.expected_return
        let vc := calculateRiskMetrics draws confidence_level
        { success := true,
          optimal_weights := w,
          expected_return := dotQ w expected_returns,
          expected_variance := dotQ w (matVecQ covariance_matrix w),
          var := vc.1,
          cvar := vc.2,
          concentration := calculate_concentration w,
          method := method.value,
          error_message := "" }

/-- The catch-all of `optimize` (lines 237-251): any exception escaping
the body is converted into a failure record carrying the exception
text; nothing propagates past the boundary. -/
def optimizeGuarded (method : String)
    (body : Except String OptimizationResult) : OptimizationResult :=
  match body with
  | .ok r => r
  | .error e => failResult method e

/-! ## Definitions transcribed from the specification text, for
refinement comparisons against the code-derived definitions above. -/

/-- The quantile of a sample at fraction `p` with linear (percentile)
interpolation, written from the words of spec sections 4.3 and 8:
position `p * (n - 1)` into the ascending sort, interpolating linearly
between the neighbouring order statistics. -/
def specQuantileLinear (xs : List ℚ) (p : ℚ) : ℚ :=
  let s := sortQ xs
  let pos : ℚ := p * ((xs.length : ℚ) - 1)
  let i : ℕ := (Int.floor pos).toNat
  let lo := s.getD i 0
  let hi := s.getD (i + 1) lo
  lo + (pos - (i : ℚ)) * (hi - lo)

/-- Whether all assets supply history of equal usable (positive)
length, the branch condition named by spec section 4.6. -/
def equalUsableLength (assets : List AssetData) : Bool :=
  match assets.map fun a => a.historical_returns.length with
  | [] => true
  | n :: ns => decide (0 < n) && ns.all fun m => m = n

/-- Covariance derivation as the specification (and claim) words it:
sample covariance exactly when all assets supply history of equal
usable length, otherwise the synthesized 0.3-scaled outer product. -/
def specCovClaim (assets : List AssetData) : Option (List (List ℚ)) :=
  if assets.length < 2 then none
  else if equalUsableLength assets then
    some (sampleCovQ (assets.map fun a => a.historical_returns))
  else some (fallbackCov assets)

/-- Covariance derivation as amended: sample covariance when all
histories are non-empty and of equal length; the synthesized fallback
only when some asset has an empty history; no matrix at all (an
exception escaping `add_asset`) when histories are non-empty but of
unequal lengths. -/
def specCovAmended (assets : List AssetData) : Option (List (List ℚ)) :=
  if assets.length < 2 then none
  else if assets.any fun a => a.historical_returns.isEmpty then
    some (fallbackCov assets)
  else if equalUsableLength assets then
    some (sampleCovQ (assets.map fun a => a.historical_returns))
  else none

/-! ## Shared concrete data for witnesses and counterexamples -/

/-- The deterministic regression fixture of spec section 8. -/
def fixtureReturns : List ℚ :=
  [-1/20, -3/100, -1/100, 0, 1/50, 1/25, 3/50, 2/25]

/-- A 2x2 symmetric matrix that is not positive semi-definite
(eigenvalues 3 and -1): Cholesky factorization fails on it. -/
def badCorrelation : List (List ℚ) := [[1, 2], [2, 1]]

/-- A concrete optimizer asset with a three-point history. -/
def assetAlpha : AssetData :=
  { symbol := "AAA", expected_return := 1/10, volatility := 1/5,
    historical_returns := [1/100, 2/100, 3/100] }

/-- A concrete optimizer asset with a two-point history. -/
def assetBeta : AssetData :=
  { symbol := "BBB", expected_return := 3/20, volatility := 3/10,
    historical_returns := [1/100, 2/100] }

/-- A concrete simulation asset with a three-point history. -/
def assetGamma : AssetParameters :=
  { symbol := "GGG", initial_price := 100, expected_return := 1/20,
    volatility := 1/5, historical_returns := [1/10, -1/10, 1/5], weight := 1 }

/-! ## Helper lemmas -/

/-- A list mean is bounded by any bound on the elements. -/
lemma meanQ_le_of_forall_le (t : List ℚ) (b : ℚ) (ht : t ≠ [])
    (h : ∀ x ∈ t, x ≤ b) : meanQ t ≤ b := by
  have hl : 0 < (t.length : ℚ) := by
    exact_mod_cast List.length_pos.mpr ht
  have hs : t.sum ≤ t.length • b := List.sum_le_card_nsmul t b h
  rw [nsmul_eq_mul] at hs
  rw [meanQ, div_le_iff₀ hl]
  linarith

/-- Cauchy-Schwarz for list sums: the squared sum is at most the length
times the sum of squares. -/
lemma sq_sum_le_len_mul_sum_sq :
    ∀ xs : List ℚ, xs.sum ^ 2 ≤ (xs.length : ℚ) * (xs.map fun x => x ^ 2).sum := by
  intro xs
  induction xs with
  | nil => simp
  | cons x xs ih =>
    simp only [List.sum_cons, List.map_cons, List.length_cons]
    push_cast
    have hn : (0 : ℚ) ≤ (xs.length : ℚ) := by positivity
    rcases Nat.eq_zero_or_pos xs.length with h0 | hpos
    · obtain rfl : xs = [] := List.length_eq_zero.mp h0
      simp
    · have hnpos : (0 : ℚ) < (xs.length : ℚ) := by exact_mod_cast hpos
      have key : (xs.length : ℚ) * (x + xs.sum) ^ 2
          ≤ (xs.length : ℚ)
            * (((xs.length : ℚ) + 1) * (x ^ 2 + (xs.map fun x => x ^ 2).sum)) := by
        nlinarith [ih, sq_nonneg ((xs.length : ℚ) * x - xs.sum), hn,
          mul_nonneg hn (sub_nonneg.mpr ih)]
      exact le_of_mul_le_mul_left key hnpos

/-- Monotonicity of indexed access into a sorted list. -/
lemma getD_le_getD_of_sorted (s : List ℚ) (hs : s.Sorted (· ≤ ·)) (i j : ℕ)
    (hij : i ≤ j) (hj : j < s.length) : s.getD i 0 ≤ s.getD j 0 := by
  have hi : i < s.length := lt_of_le_of_lt hij hj
  rw [List.getD_eq_getElem s 0 hi, List.getD_eq_getElem s 0 hj]
  have h := hs.rel_get_of_le (a := ⟨i, hi⟩) (b := ⟨j, hj⟩) hij
  simpa [List.get_eq_getElem] using h

/-- The interpolated percentile of a non-empty sample is at least some
sample value: the virtual position lands inside the sorted list, the
interpolation moves upward from the lower order statistic, and the
sorted minimum sits below it. -/
lemma exists_mem_le_npPercentile (xs : List ℚ) (q : ℚ) (hxs : xs ≠ [])
    (hq0 : 0 ≤ q) (hq1 : q ≤ 100) : ∃ x ∈ xs, x ≤ npPercentile xs q := by
  have hn : 0 < xs.length := List.length_pos.mpr hxs
  have hn1 : (1 : ℚ) ≤ (xs.length : ℚ) := by exact_mod_cast hn
  set s := sortQ xs with hs_def
  have hsort : s.Sorted (· ≤ ·) := List.sorted_insertionSort _ xs
  have hlen : s.length = xs.length := (List.perm_insertionSort _ xs).length_eq
  set pos : ℚ := q * ((xs.length : ℚ) - 1) / 100 with hpos_def
  have hpos0 : 0 ≤ pos := by
    apply div_nonneg (mul_nonneg hq0 (by linarith)) (by norm_num)
  have hposle : pos ≤ (xs.length : ℚ) - 1 := by
    rw [hpos_def, div_le_iff₀ (by norm_num : (0:ℚ) < 100)]
    nlinarith
  set i : ℕ := (Int.floor pos).toNat with hi_def
  have hfl0 : 0 ≤ Int.floor pos := Int.floor_nonneg.mpr hpos0
  have hicast : (i : ℚ) = ((Int.floor pos : ℤ) : ℚ) := by
    rw [hi_def]
    norm_cast
    exact Int.toNat_of_nonneg hfl0
  have hile : (i : ℚ) ≤ pos := by rw [hicast]; exact_mod_cast Int.floor_le pos
  have hin : i < xs.length := by
    have h2 : pos ≤ (((xs.length : ℤ) - 1 : ℤ) : ℚ) := by push_cast; linarith
    have h1 : Int.floor pos ≤ (xs.length : ℤ) - 1 :=
      (Int.floor_le_floor h2).trans_eq (Int.floor_intCast _)
    omega
  have hsi : i < s.length := by rw [hlen]; exact hin
  have h0s : 0 < s.length := by rw [hlen]; exact hn
  have hunf : npPercentile xs q
      = s.getD i 0 + (pos - (i : ℚ)) * (s.getD (i + 1) (s.getD i 0) - s.getD i 0) := rfl
  have hhi : s.getD i 0 ≤ s.getD (i + 1) (s.getD i 0) := by
    by_cases h : i + 1 < s.length
    · rw [List.getD_eq_getElem s (s.getD i 0) h]
      have h2 := getD_le_getD_of_sorted s hsort i (i + 1) (Nat.le_succ i) h
      rwa [List.getD_eq_getElem s 0 h] at h2
    · rw [List.getD_eq_default s (s.getD i 0) (by omega)]
  have hvalge : s.getD i 0 ≤ npPercentile xs q := by
    rw [hunf]
    have hm := mul_nonneg (by linarith : (0 : ℚ) ≤ pos - (i : ℚ))
      (sub_nonneg.mpr hhi)
    linarith
  refine ⟨s.getD 0 0, ?_, ?_⟩
  · have hmem : s.getD 0 0 ∈ s := by
      rw [List.getD_eq_getElem s 0 h0s]
      have hg := List.get_mem s 0 h0s
      rwa [List.get_eq_getElem] at hg
    exact (List.perm_insertionSort _ xs).subset hmem
  · exact (getD_le_getD_of_sorted s hsort 0 i (Nat.zero_le i) hsi).trans hvalge

/-- Every element of the sorted initial segment below an index is at
most the value at that index. -/
lemma mem_take_le_getD (s : List ℚ) (hs : s.Sorted (· ≤ ·)) (idx : ℕ)
    (hidx : idx < s.length) : ∀ x ∈ s.take idx, x ≤ s.getD idx 0 := by
  intro x hx
  obtain ⟨j, hj, hxj⟩ := List.mem_iff_getElem.mp hx
  have hjlen : j < idx := by
    have := List.length_take idx s
    omega
  have hjs : j < s.length := lt_trans hjlen hidx
  have he : x = s.getD j 0 := by
    rw [List.getD_eq_getElem s 0 hjs, ← List.getElem_take s]
    exact hxj.symm
  rw [he]
  exact getD_le_getD_of_sorted s hs j idx (le_of_lt hjlen) hidx

/-- The order-statistic index of the monte_carlo_var calculator stays
inside the sample for a positive confidence level. -/
lemma mcVarIndex_lt_length (xs : List ℚ) (c : ℚ) (hxs : xs ≠ [])
    (hc : 0 < c) : mcVarIndex xs c < xs.length := by
  have hn : 0 < xs.length := List.length_pos.mpr hxs
  have hnq : (0 : ℚ) < (xs.length : ℚ) := by exact_mod_cast hn
  have hlt : (1 - c) * (xs.length : ℚ) < ((xs.length : ℤ) : ℚ) := by
    push_cast
    nlinarith
  have hfl : Int.floor ((1 - c) * (xs.length : ℚ)) < (xs.length : ℤ) :=
    Int.floor_lt.mpr hlt
  have : mcVarIndex xs c = (Int.floor ((1 - c) * (xs.length : ℚ))).toNat := rfl
  omega

/-! ## Claim theorems -/

/-- C3: the correlation injector does fall back to independent returns
when the Cholesky factorization of a non-PSD matrix fails, but the
portfolio metadata still reports only `correlation_used = true`
(derived from the matrix being supplied), with no degraded-mode flag —
evaluated here at the concrete non-PSD matrix `[[1,2],[2,1]]`. -/
theorem cholesky_fallback_unflagged :
    choleskyFails badCorrelation = true
    ∧ (∀ (rs : List SimulationResult) (L Z : List (List ℚ)),
        generate_correlated_returns rs badCorrelation L Z
          = rs.map fun r => r.simulated_returns)
    ∧ (∀ (w : List ℚ) (d : ℚ),
        (simulatePortfolioMetadata 2 w d (some badCorrelation)).correlation_used
          = true) := by
  have h : choleskyFails badCorrelation = true := by with_unfolding_all rfl
  refine ⟨h, ?_, fun w d => rfl⟩
  intro rs L Z
  rw [generate_correlated_returns, if_pos h]

/-- C4: when an asset carries a non-empty history, the single-asset
simulator estimates (mean, volatility) from the history alone, so a
stressed copy of the asset — whose multipliers touch only the supplied
scalars — simulates from exactly the same estimated parameters, and so
does any rewrite of the supplied scalars. -/
theorem stress_preserves_estimated_parameters :
    ∀ (asset : AssetParameters) (rm vm er vol : ℚ),
      asset.historical_returns ≠ [] →
      simulationParameters (stressedAsset asset rm vm) = simulationParameters asset
      ∧ simulationParameters
          { asset with expected_return := er, volatility := vol }
          = simulationParameters asset := by
  intro asset rm vm er vol h
  constructor <;> simp [simulationParameters, stressedAsset, h]

/-- Witness for C4 at a concrete asset with history. -/
theorem stress_preserves_witness :
    assetGamma.historical_returns ≠ []
    ∧ simulationParameters (stressedAsset assetGamma 2 3)
        = simulationParameters assetGamma := by
  have hh : assetGamma.historical_returns ≠ [] := by with_unfolding_all decide
  exact ⟨hh, (stress_preserves_estimated_parameters assetGamma 2 3 0 0 hh).1⟩

/-- C5: whenever the selected tail is non-empty, CVaR dominates VaR:
for the engine the tail is everything at or below `-VaR`, so its mean
is at most `-VaR`; for the monte_carlo_var calculator the tail is the
sorted initial segment below the VaR order statistic. -/
theorem cvar_ge_var (xs : List ℚ) (c : ℚ) (hc0 : 0 < c) (_hc1 : c < 1) :
    (engineTail xs c ≠ [] → calculate_var xs c ≤ calculate_cvar xs c)
    ∧ ((sortQ xs).take (mcVarIndex xs c) ≠ [] →
        (mcVarCvar xs c).1 ≤ (mcVarCvar xs c).2) := by
  constructor
  · intro ht
    have hlen : 0 < (engineTail xs c).length := List.length_pos.mpr ht
    have hall : ∀ x ∈ engineTail xs c, x ≤ -(calculate_var xs c) := by
      intro x hx
      have h2 := List.of_mem_filter hx
      simpa using h2
    have hmean : meanQ (engineTail xs c) ≤ -(calculate_var xs c) :=
      meanQ_le_of_forall_le _ _ ht hall
    have he : calculate_cvar xs c = -(meanQ (engineTail xs c)) := by
      rw [calculate_cvar]
      simp only [hlen, if_pos]
    rw [he]
    linarith
  · intro ht
    have hxs : xs ≠ [] := by
      intro h
      subst h
      exact ht (by simp [sortQ])
    have hsort : (sortQ xs).Sorted (· ≤ ·) := List.sorted_insertionSort _ xs
    have hlen : (sortQ xs).length = xs.length :=
      (List.perm_insertionSort _ xs).length_eq
    have hidx : mcVarIndex xs c < (sortQ xs).length := by
      rw [hlen]
      exact mcVarIndex_lt_length xs c hxs hc0
    have hall := mem_take_le_getD (sortQ xs) hsort (mcVarIndex xs c) hidx
    have htl : 0 < ((sortQ xs).take (mcVarIndex xs c)).length :=
      List.length_pos.mpr ht
    have hm : meanQ ((sortQ xs).take (mcVarIndex xs c))
        ≤ (sortQ xs).getD (mcVarIndex xs c) 0 :=
      meanQ_le_of_forall_le _ _ ht hall
    have h1 : (mcVarCvar xs c).1 = -((sortQ xs).getD (mcVarIndex xs c) 0) := rfl
    have h2 : (mcVarCvar xs c).2
        = -(meanQ ((sortQ xs).take (mcVarIndex xs c))) := by
      have he : (mcVarCvar xs c).2
          = if 0 < ((sortQ xs).take (mcVarIndex xs c)).length then
              -(meanQ ((sortQ xs).take (mcVarIndex xs c)))
            else (mcVarCvar xs c).1 := rfl
      rw [he, if_pos htl]
    rw [h1, h2]
    linarith

/-- Witness for C5 at a concrete sample where both tails are non-empty. -/
theorem cvar_ge_var_witness :
    engineTail [-1, -1/2, 0, 1] (1/2) ≠ []
    ∧ calculate_var [-1, -1/2, 0, 1] (1/2)
        ≤ calculate_cvar [-1, -1/2, 0, 1] (1/2)
    ∧ (sortQ [-1, -1/2, 0, 1]).take (mcVarIndex [-1, -1/2, 0, 1] (1/2)) ≠ []
    ∧ (mcVarCvar [-1, -1/2, 0, 1] (1/2)).1 ≤ (mcVarCvar [-1, -1/2, 0, 1] (1/2)).2 := by
  have h1 : engineTail [-1, -1/2, 0, 1] (1/2) ≠ [] := by
    with_unfolding_all decide
  have h2 : (sortQ [-1, -1/2, 0, 1]).take (mcVarIndex [-1, -1/2, 0, 1] (1/2)) ≠ [] := by
    with_unfolding_all decide
  have h := cvar_ge_var [-1, -1/2, 0, 1] (1/2) (by norm_num) (by norm_num)
  exact ⟨h1, h.1 h1, h2, h.2 h2⟩

/-- C6: the optimizer boundary never leaks an exception: fewer than 2
assets and a failed solver yield dedicated failure records, and the
outer exception handler converts any escaping error into a failure
record carrying the message. -/
theorem optimize_error_boundary :
    (∀ (assets : List AssetData) (cov : List (List ℚ))
        (method : OptimizationMethod) (solver : Option (List ℚ))
        (draws : List ℚ) (conf : ℚ),
        assets.length < 2 →
        optimize assets cov method solver draws conf
          = failResult method.value "At least 2 assets required for optimization")
    ∧ (∀ (assets : List AssetData) (cov : List (List ℚ))
        (method : OptimizationMethod) (draws : List ℚ) (conf : ℚ),
        2 ≤ assets.length → method ≠ .equal_weight →
        optimize assets cov method none draws conf
          = failResult method.value "Optimization failed to converge")
    ∧ (∀ (m e : String), optimizeGuarded m (Except.error e) = failResult m e)
    ∧ (∀ (m : String) (r : OptimizationResult), optimizeGuarded m (Except.ok r) = r) := by
  refine ⟨?_, ?_, fun m e => rfl, fun m r => rfl⟩
  · intro assets cov method solver draws conf h
    rw [optimize, if_pos h]
  · intro assets cov method draws conf h hm
    have hlt : ¬ assets.length < 2 := by omega
    have hw : methodWeights method assets.length none = none := by
      cases method <;> first | rfl | exact absurd rfl hm
    rw [optimize, if_neg hlt]
    simp only [hw]

/-- Witness for C6: the two failure records at concrete inputs. -/
theorem optimize_error_boundary_witness :
    optimize [] [] .mean_variance none [] (19/20)
      = failResult "mean_variance" "At least 2 assets required for optimization"
    ∧ optimize [assetAlpha, assetBeta] [[1, 0], [0, 1]] .risk_parity none [] (19/20)
      = failResult "risk_parity" "Optimization failed to converge" := by
  exact ⟨optimize_error_boundary.1 [] [] .mean_variance none [] (19/20) (by decide),
    optimize_error_boundary.2.1 [assetAlpha, assetBeta] [[1, 0], [0, 1]]
      .risk_parity [] (19/20) (by decide) (by decide)⟩

/-- C8: with at least 2 assets, the `equal_weight` method returns the
exact `1/n` vector in closed form, succeeds, and the result does not
depend on the solver outcome (no solver invocation). -/
theorem equal_weight_closed_form :
    ∀ (assets : List AssetData) (cov : List (List ℚ))
      (solver : Option (List ℚ)) (draws : List ℚ) (conf : ℚ),
      2 ≤ assets.length →
      (optimize assets cov .equal_weight solver draws conf).optimal_weights
          = List.replicate assets.length (1 / (assets.length : ℚ))
      ∧ (optimize assets cov .equal_weight solver draws conf).success = true
      ∧ optimize assets cov .equal_weight solver draws conf
          = optimize assets cov .equal_weight none draws conf := by
  intro assets cov solver draws conf h
  have hlt : ¬ assets.length < 2 := by omega
  have hne : ¬ (List.replicate assets.length (1 / (assets.length : ℚ))).length = 0 := by
    rw [List.length_replicate]
    omega
  refine ⟨?_, ?_, rfl⟩ <;>
    · rw [optimize, if_neg hlt]
      simp only [methodWeights]
      rw [if_neg hne]

/-- Witness for C8 at two concrete assets and a discarded solver value. -/
theorem equal_weight_witness :
    (optimize [assetAlpha, assetBeta] [[1, 0], [0, 1]] .equal_weight
        (some [1, 0]) [] (19/20)).optimal_weights = [1/2, 1/2] := by
  have h := (equal_weight_closed_form [assetAlpha, assetBeta] [[1, 0], [0, 1]]
    (some [1, 0]) [] (19/20) (by decide)).1
  rw [h]
  with_unfolding_all rfl

/-- C1 counterexample: on the sample `[1,2,3,4]` at confidence `1/2`,
the CVaR of the monte_carlo_var calculator is not the negated mean of
the sample values at or below the negated VaR of that same calculator
(`-3/2` against `-2`): its tail drops the value equal to the
threshold. -/
theorem cvar_mc_tail_mismatch :
    (mcVarCvar [1, 2, 3, 4] (1/2)).2
      ≠ -(meanQ (List.filter
          (fun r => r ≤ -((mcVarCvar [1, 2, 3, 4] (1/2)).1)) [1, 2, 3, 4])) := by
  with_unfolding_all decide

/-- C1 amended: for a non-empty sample and confidence in `(0,1)` the
engine tail at or below `-VaR` is never empty and engine CVaR is its
negated mean (so the engine code's empty-tail fallback of `0` is
unreachable there); the quant_models CVaR coincides with the engine
CVaR; the monte_carlo_var CVaR instead averages the sorted initial
segment before the VaR index, falling back to its VaR when that
segment is empty. -/
theorem cvar_tail_characterization (xs : List ℚ) (c : ℚ) (hxs : xs ≠ [])
    (hc0 : 0 < c) (hc1 : c < 1) :
    engineTail xs c ≠ []
    ∧ calculate_cvar xs c = -(meanQ (engineTail xs c))
    ∧ (cvarCalculation xs c).1 = calculate_var xs c
    ∧ (cvarCalculation xs c).2 = calculate_cvar xs c
    ∧ ((sortQ xs).take (mcVarIndex xs c) = [] →
        (mcVarCvar xs c).2 = (mcVarCvar xs c).1)
    ∧ ((sortQ xs).take (mcVarIndex xs c) ≠ [] →
        (mcVarCvar xs c).2 = -(meanQ ((sortQ xs).take (mcVarIndex xs c)))) := by
  have hq0 : (0 : ℚ) ≤ (1 - c) * 100 := by nlinarith
  have hq1 : (1 - c) * 100 ≤ 100 := by nlinarith
  obtain ⟨x, hxmem, hxle⟩ := exists_mem_le_npPercentile xs ((1 - c) * 100) hxs hq0 hq1
  have hxtail : x ∈ engineTail xs c := by
    rw [engineTail]
    apply List.mem_filter.mpr
    refine ⟨hxmem, ?_⟩
    simpa [calculate_var] using hxle
  have hne : engineTail xs c ≠ [] := List.ne_nil_of_mem hxtail
  have htrue : 0 < (engineTail xs c).length := List.length_pos.mpr hne
  refine ⟨hne, ?_, rfl, ?_, ?_, ?_⟩
  · rw [calculate_cvar, if_pos htrue]
  · have e1 : (cvarCalculation xs c).2
        = if 0 < (engineTail xs c).length then -(meanQ (engineTail xs c))
          else calculate_var xs c := rfl
    have e2 : calculate_cvar xs c
        = if 0 < (engineTail xs c).length then -(meanQ (engineTail xs c))
          else 0 := rfl
    rw [e1, e2, if_pos htrue, if_pos htrue]
  · intro h
    have hlen : ¬ 0 < ((sortQ xs).take (mcVarIndex xs c)).length := by
      rw [h]
      simp
    have e : (mcVarCvar xs c).2
        = if 0 < ((sortQ xs).take (mcVarIndex xs c)).length then
            -(meanQ ((sortQ xs).take (mcVarIndex xs c)))
          else (mcVarCvar xs c).1 := rfl
    rw [e, if_neg hlen]
  · intro h
    have hlen : 0 < ((sortQ xs).take (mcVarIndex xs c)).length :=
      List.length_pos.mpr h
    have e : (mcVarCvar xs c).2
        = if 0 < ((sortQ xs).take (mcVarIndex xs c)).length then
            -(meanQ ((sortQ xs).take (mcVarIndex xs c)))
          else (mcVarCvar xs c).1 := rfl
    rw [e, if_pos hlen]

/-- Witness for the amended C1 at the sample `[1,2,3,4]`, confidence
`1/2`. -/
theorem cvar_tail_witness :
    engineTail [1, 2, 3, 4] (1/2) ≠ []
    ∧ calculate_cvar [1, 2, 3, 4] (1/2)
        = -(meanQ (engineTail [1, 2, 3, 4] (1/2)))
    ∧ (cvarCalculation [1, 2, 3, 4] (1/2)).2 = calculate_cvar [1, 2, 3, 4] (1/2) := by
  have h := cvar_tail_characterization [1, 2, 3, 4] (1/2) (by decide)
    (by norm_num) (by norm_num)
  exact ⟨h.1, h.2.1, h.2.2.2.1⟩

/-- C2 counterexample: on the fixture returns at confidence `0.75`, the
monte_carlo_var VaR is the raw order statistic `0.01`, not the negated
linearly interpolated 25th-percentile value `0.015`. -/
theorem var_mc_fixture_mismatch :
    (mcVarCvar fixtureReturns (3/4)).1 = 1/100
    ∧ -(specQuantileLinear fixtureReturns (1/4)) = 3/200
    ∧ (mcVarCvar fixtureReturns (3/4)).1
        ≠ -(specQuantileLinear fixtureReturns (1/4)) := by
  refine ⟨?_, ?_, ?_⟩ <;> with_unfolding_all decide

/-- C2 amended: the engine VaR equals the negated `(1-c)`-quantile with
linear interpolation (transcribed independently from the spec text) for
every sample and confidence level, and on the fixture it evaluates to
`3/200 = 0.015`; the monte_carlo_var VaR is instead the negated
uninterpolated order statistic at index `int((1-c)*n)`. -/
theorem var_engine_matches_quantile :
    (∀ (xs : List ℚ) (c : ℚ),
        calculate_var xs c = -(specQuantileLinear xs (1 - c)))
    ∧ calculate_var fixtureReturns (3/4) = 3/200
    ∧ (∀ (xs : List ℚ) (c : ℚ),
        (mcVarCvar xs c).1 = -((sortQ xs).getD (mcVarIndex xs c) 0)) := by
  refine ⟨?_, by with_unfolding_all rfl, fun xs c => rfl⟩
  intro xs c
  have hpos : (1 - c) * 100 * ((xs.length : ℚ) - 1) / 100
      = (1 - c) * ((xs.length : ℚ) - 1) := by
    ring
  simp only [calculate_var, npPercentile, specQuantileLinear]
  rw [hpos]

/-- Composing a map into a boolean conjunction over a list. -/
lemma allMapComp {α β : Type} (l : List α) (f : α → β) (p : β → Bool) :
    (l.map f).all p = l.all fun x => p (f x) := by
  induction l with
  | nil => rfl
  | cons a l ih => simp only [List.map_cons, List.all_cons, ih]

/-- When every asset has a non-empty history, the code's inner
rectangularity check agrees with the spec's equal-usable-length
condition. -/
lemma equalUsable_of_all_nonempty (a : AssetData) (as : List AssetData)
    (h0 : 0 < a.historical_returns.length) :
    (((a :: as).map fun x => x.historical_returns).all
        fun r => r.length = (((a :: as).map fun x => x.historical_returns).headD []).length)
      = equalUsableLength (a :: as) := by
  simp only [List.map_cons, List.headD_cons, List.all_cons, equalUsableLength]
  simp [h0]
  rw [allMapComp, allMapComp]

set_option maxRecDepth 8192 in
/-- C7 counterexample: with two assets whose histories are non-empty
but of unequal lengths (3 and 2 points), the code produces no
covariance at all (the ragged `np.array`/`np.cov` raises), while the
claim's reading would synthesize the 0.3-scaled fallback. -/
theorem update_matrices_ragged_mismatch :
    update_matrices [assetAlpha, assetBeta] = none
    ∧ specCovClaim [assetAlpha, assetBeta]
        = some (fallbackCov [assetAlpha, assetBeta])
    ∧ update_matrices [assetAlpha, assetBeta]
        ≠ specCovClaim [assetAlpha, assetBeta] := by
  refine ⟨?_, ?_, ?_⟩ <;> with_unfolding_all decide

/-- C7 amended: the derived covariance is the sample covariance when
all assets supply non-empty histories of equal length; the synthesized
0.3-scaled outer product when some asset has no history; and absent
(an exception escaping the matrix update) when histories are non-empty
but of unequal lengths — stated as pointwise agreement with the
amended-spec transcription. -/
theorem update_matrices_characterization (assets : List AssetData) :
    update_matrices assets = specCovAmended assets := by
  rw [update_matrices, specCovAmended]
  by_cases h2 : assets.length < 2
  · rw [if_pos h2, if_pos h2]
  · rw [if_neg h2, if_neg h2]
    by_cases hall : (assets.all fun a => 0 < a.historical_returns.length) = true
    · have hany : (assets.any fun a => a.historical_returns.isEmpty) = false := by
        rw [List.any_eq_false]
        intro a ha
        have h := List.all_eq_true.mp hall a ha
        simp only [decide_eq_true_eq] at h
        simp only [List.isEmpty_iff]
        intro hemp
        rw [hemp] at h
        simp at h
      rw [if_pos hall, hany]
      rw [if_neg (by simp : ¬ (false : Bool) = true)]
      obtain ⟨a, as, rfl⟩ : ∃ a as, assets = a :: as := by
        cases assets with
        | nil => simp at h2
        | cons a as => exact ⟨a, as, rfl⟩
      have h0 : 0 < a.historical_returns.length := by
        have h := List.all_eq_true.mp hall a (List.mem_cons_self a as)
        simpa using h
      rw [equalUsable_of_all_nonempty a as h0]
    · have hany : (assets.any fun a => a.historical_returns.isEmpty) = true := by
        have hall2 := hall
        rw [Bool.not_eq_true, List.all_eq_false] at hall2
        obtain ⟨a, ha, hlen⟩ := hall2
        rw [List.any_eq_true]
        refine ⟨a, ha, ?_⟩
        rw [List.isEmpty_iff_length_eq_zero]
        simp only [decide_eq_true_eq] at hlen
        omega
      rw [if_neg hall, hany, if_pos rfl]

/-- C9 counterexample: at the equal-weight optimum over 2 assets the
concentration value equals the sum of squared weights but sits exactly
at `1/n = 1/2`, so it does not lie in the open-below interval
`(1/n, 1]` the claim asserts. -/
theorem concentration_lower_bound_attained :
    (optimize [assetAlpha, assetBeta] [[1, 0], [0, 1]] .equal_weight
        none [] (19/20)).concentration
      = calculate_concentration
          (optimize [assetAlpha, assetBeta] [[1, 0], [0, 1]] .equal_weight
            none [] (19/20)).optimal_weights
    ∧ (optimize [assetAlpha, assetBeta] [[1, 0], [0, 1]] .equal_weight
        none [] (19/20)).concentration = 1/2
    ∧ ¬ ((1 : ℚ) / (([assetAlpha, assetBeta] : List AssetData).length : ℚ)
          < (optimize [assetAlpha, assetBeta] [[1, 0], [0, 1]] .equal_weight
              none [] (19/20)).concentration) := by
  refine ⟨?_, ?_, ?_⟩ <;> with_unfolding_all decide

/-- C9 amended: every optimizer result's concentration field is the
Herfindahl index of its own weight vector, and for weights in `[0,1]`
summing to 1 the index lies in the closed interval `[1/n, 1]`, the
lower endpoint being attained at equal weights. -/
theorem concentration_characterization :
    (∀ (assets : List AssetData) (cov : List (List ℚ))
        (method : OptimizationMethod) (solver : Option (List ℚ))
        (draws : List ℚ) (conf : ℚ),
        (optimize assets cov method solver draws conf).concentration
          = calculate_concentration
              (optimize assets cov method solver draws conf).optimal_weights)
    ∧ (∀ w : List ℚ, (∀ x ∈ w, 0 ≤ x ∧ x ≤ 1) → w.sum = 1 →
        1 / (w.length : ℚ) ≤ calculate_concentration w
        ∧ calculate_concentration w ≤ 1) := by
  constructor
  · intro assets cov method solver draws conf
    rw [optimize]
    split
    · rfl
    · split
      · rfl
      · split
        · rfl
        · rfl
  · intro w hb hsum
    have hne : w ≠ [] := by
      intro h
      rw [h] at hsum
      simp at hsum
    have hl : (0 : ℚ) < (w.length : ℚ) := by
      exact_mod_cast List.length_pos.mpr hne
    constructor
    · have h := sq_sum_le_len_mul_sum_sq w
      rw [hsum] at h
      rw [calculate_concentration, div_le_iff₀ hl]
      nlinarith
    · have hmono : (w.map fun x => x ^ 2).sum ≤ (w.map fun x => x).sum := by
        apply List.sum_le_sum
        intro x hx
        obtain ⟨h0, h1⟩ := hb x hx
        nlinarith
      rw [calculate_concentration]
      calc (w.map fun x => x ^ 2).sum ≤ (w.map fun x => x).sum := hmono
        _ = w.sum := by simp
        _ = 1 := hsum

/-- Witness for the amended C9 at the weight vector `[1/2, 1/2]`. -/
theorem concentration_range_witness :
    1 / (([1/2, 1/2] : List ℚ).length : ℚ)
        ≤ calculate_concentration [1/2, 1/2]
    ∧ calculate_concentration [1/2, 1/2] ≤ 1 :=
  concentration_characterization.2 [1/2, 1/2]
    (by intro x hx; fin_cases hx <;> norm_num) (by norm_num)

end FinRisk
